import Mathlib

/-!
Verification of the J1939 signal encoder backend (`src/backend/app.py`).

The Python code is shallowly embedded:
* Python floats are modelled as exact rationals (`ℚ`); every float literal
  appearing in the repository (0.125, 1/256, 0.03125, the integer-valued
  offsets and bounds) is an exact dyadic rational, so the arithmetic the
  claims exercise is exact in both worlds.
* Python `round` is banker's rounding (round half to even); `pyRound` models it.
* `bytearray(8)` is modelled as a function from byte index to byte value,
  initially constantly `0`.
* Fallible functions (`raise ValueError`) return `Except String _`.
* The Flask route `/api/encode` is modelled as a pure function from the
  request fields to either an error (message, HTTP status) or an encoded
  frame; string-formatting output fields (`raw_hex`, `raw_binary`,
  `data_bytes` hex text) are omitted, `data_array` carries the bytes.
* The socketio start/stop handlers mutate a global flag and spawn a worker
  thread; they are modelled as transitions on an explicit state recording
  the flag and the number of spawned workers.
-/

/-- Python's built-in `round`: nearest integer, ties to even, modelled on ℚ. -/
def pyRound (q : ℚ) : ℤ :=
  if q - ⌊q⌋ < 1/2 then ⌊q⌋
  else if 1/2 < q - ⌊q⌋ then ⌊q⌋ + 1
  else if ⌊q⌋ % 2 = 0 then ⌊q⌋ else ⌊q⌋ + 1

/-- Equality is decidable on `Except` results, so claims can be checked on
concrete inputs. -/
instance exceptDecEq {ε α : Type} [DecidableEq ε] [DecidableEq α] :
    DecidableEq (Except ε α) := fun x y =>
  match x, y with
  | .ok a, .ok b =>
    if h : a = b then .isTrue (by rw [h])
    else .isFalse (fun he => h (Except.ok.inj he))
  | .error a, .error b =>
    if h : a = b then .isTrue (by rw [h])
    else .isFalse (fun he => h (Except.error.inj he))
  | .ok _, .error _ => .isFalse (fun he => Except.noConfusion he)
  | .error _, .ok _ => .isFalse (fun he => Except.noConfusion he)

/-- `J1939Encoder.physical_to_raw` (app.py lines 192-199). -/
def physical_to_raw (physical_value resolution offset : ℚ) : Except String ℤ :=
  if resolution = 0 then .error "Resolution cannot be zero"
  else .ok (max 0 (pyRound ((physical_value - offset) / resolution)))

/-- `J1939Encoder.calculate_can_id` (app.py lines 171-190).
The Python default `source_address=0` is supplied explicitly by callers here.
Both branches of the Python `if pgn < 0xF000` assign the same `pdu_format`,
so only `pdu_specific` depends on the branch. -/
def calculate_can_id (pgn : ℕ) (source_address : ℕ) : ℕ :=
  let priority : ℕ := 6
  let pdu_format : ℕ := (pgn >>> 8) &&& 0xFF
  let pdu_specific : ℕ := if pgn < 0xF000 then pgn &&& 0xFF else 0xFF
  ((priority &&& 0x7) <<< 26) |||
    ((0 &&& 0x1) <<< 25) |||
    ((0 &&& 0x1) <<< 24) |||
    ((pdu_format &&& 0xFF) <<< 16) |||
    ((pdu_specific &&& 0xFF) <<< 8) |||
    (source_address &&& 0xFF)

/-- One iteration of the packing loop in `J1939Encoder.encode_value`
(app.py lines 213-222): write bit `i` of `raw_value` into the frame.
Frame bytes are 0-255, so Python's `&= ~(1 << current_bit)` on a bytearray
cell is the complement taken within one byte, `&&& (0xFF ^^^ (1 <<< bit))`. -/
def write_bit (raw_value byte_idx bit_idx i : ℕ) (data : ℕ → ℕ) : ℕ → ℕ :=
  let bit_value := (raw_value >>> i) &&& 0x01
  let current_byte := byte_idx + (bit_idx + i) / 8
  let current_bit := (bit_idx + i) % 8
  fun j =>
    if j = current_byte then
      if bit_value = 1 then data j ||| (1 <<< current_bit)
      else data j &&& (0xFF ^^^ (1 <<< current_bit))
    else data j

/-- The `for i in range(length_bits)` loop of `J1939Encoder.encode_value`:
`pack_loop raw b bi n data` has performed iterations `i = 0, …, n-1`. -/
def pack_loop (raw_value byte_idx bit_idx : ℕ) : ℕ → (ℕ → ℕ) → (ℕ → ℕ)
  | 0, data => data
  | n + 1, data => write_bit raw_value byte_idx bit_idx n (pack_loop raw_value byte_idx bit_idx n data)

/-- `J1939Encoder.encode_value` (app.py lines 201-224): saturate the raw
value to the field width, then pack it LSB-first into an 8-byte frame. -/
def encode_value (raw_value start_byte start_bit length_bits : ℕ) : ℕ → ℕ :=
  let byte_idx := start_byte - 1
  let bit_idx := start_bit - 1
  let max_value := (1 <<< length_bits) - 1
  let raw_sat := if raw_value > max_value then max_value else raw_value
  pack_loop raw_sat byte_idx bit_idx length_bits (fun _ => 0)

/-- One live-signal configuration dict from `LIVE_SIGNALS` (app.py lines
109-166); also the `spn_config` shape consumed by `encode_spn`. -/
structure SignalConfig where
  pgn : ℕ
  spn : ℕ
  name : String
  resolution : ℚ
  offset : ℚ
  unit : String
  transmission_rate : ℕ
  min_physical : ℚ
  max_physical : ℚ
  start_byte : ℕ
  start_bit : ℕ
  length_bits : ℕ
deriving DecidableEq

/-- Result dict of `J1939Encoder.encode_spn` (app.py lines 241-256), with the
purely textual fields (`raw_hex`, `raw_binary`, hex `data_bytes`,
`can_id_hex`, `pgn_hex`) omitted. -/
structure EncodedFrame where
  physical_value : ℚ
  raw_value : ℤ
  data_array : List ℕ
  can_id : ℕ
  pgn : ℕ
  spn : ℕ
  resolution : ℚ
  offset : ℚ
  unit : String
deriving DecidableEq

/-- `J1939Encoder.encode_spn` (app.py lines 226-256). `physical_to_raw`
always returns a nonnegative integer, passed on to `encode_value` as a
natural number. -/
def encode_spn (physical_value : ℚ) (spn_config : SignalConfig) : Except String EncodedFrame := do
  let raw_value ← physical_to_raw physical_value spn_config.resolution spn_config.offset
  let data := encode_value raw_value.toNat spn_config.start_byte spn_config.start_bit
    spn_config.length_bits
  let can_id := calculate_can_id spn_config.pgn 0
  pure
    { physical_value := physical_value
      raw_value := raw_value
      data_array := (List.range 8).map data
      can_id := can_id
      pgn := spn_config.pgn
      spn := spn_config.spn
      resolution := spn_config.resolution
      offset := spn_config.offset
      unit := spn_config.unit }

/-- The `engine_speed` entry of `LIVE_SIGNALS` (app.py lines 110-123). -/
def engine_speed : SignalConfig :=
  { pgn := 61444, spn := 190, name := "Engine Speed", resolution := 0.125, offset := 0
    unit := "rpm", transmission_rate := 50, min_physical := 0, max_physical := 8031.875
    start_byte := 4, start_bit := 1, length_bits := 16 }

/-- The `vehicle_speed` entry of `LIVE_SIGNALS` (app.py lines 124-137). -/
def vehicle_speed : SignalConfig :=
  { pgn := 65265, spn := 84, name := "Vehicle Speed", resolution := 1/256, offset := 0
    unit := "km/h", transmission_rate := 100, min_physical := 0, max_physical := 250.996
    start_byte := 2, start_bit := 1, length_bits := 16 }

/-- The `cab_temperature` entry of `LIVE_SIGNALS` (app.py lines 138-151). -/
def cab_temperature : SignalConfig :=
  { pgn := 65269, spn := 170, name := "Cab Temperature", resolution := 0.03125, offset := -273
    unit := "°C", transmission_rate := 1000, min_physical := -273, max_physical := 1735
    start_byte := 2, start_bit := 1, length_bits := 16 }

/-- The `driver_torque` entry of `LIVE_SIGNALS` (app.py lines 152-165). -/
def driver_torque : SignalConfig :=
  { pgn := 61444, spn := 512, name := "Driver Torque", resolution := 1.0, offset := -125
    unit := "%", transmission_rate := 50, min_physical := -125, max_physical := 125
    start_byte := 2, start_bit := 1, length_bits := 8 }

/-- `LIVE_SIGNALS` (app.py lines 109-166), in declaration order. -/
def LIVE_SIGNALS : List (String × SignalConfig) :=
  [("engine_speed", engine_speed), ("vehicle_speed", vehicle_speed),
   ("cab_temperature", cab_temperature), ("driver_torque", driver_torque)]

/-- Dictionary lookup `LIVE_SIGNALS[signal_id]` / `signal_id in LIVE_SIGNALS`. -/
def lookupSignal (signal_id : String) : Option SignalConfig :=
  (LIVE_SIGNALS.find? (fun p => p.1 = signal_id)).map Prod.snd

/-- The `/api/encode` route handler `encode_value` (app.py lines 303-322):
reads `signal_id` and `physical_value` (defaulting to 0) from the request,
rejects unknown ids with HTTP 400, and turns encoder exceptions into
HTTP 500. -/
def api_encode (signal_id : String) (physical_value : Option ℚ) : Except (String × ℕ) EncodedFrame :=
  let pv := physical_value.getD 0
  match lookupSignal signal_id with
  | none => .error ("Invalid signal ID", 400)
  | some config =>
    match encode_spn pv config with
    | .ok result => .ok result
    | .error e => .error (e, 500)

/-- State of the live-simulation control (app.py lines 261-263 and 380-399):
the global boolean `live_simulation_active` plus the number of worker
threads spawned so far. -/
structure SchedulerState where
  active : Bool
  workers : ℕ
deriving DecidableEq

/-- The `start_live_simulation` socketio handler (app.py lines 380-391):
spawns a worker and sets the flag only when the flag is not already set. -/
def start_live_simulation (s : SchedulerState) : SchedulerState :=
  if !s.active then { active := true, workers := s.workers + 1 } else s

/-- The `stop_live_simulation` socketio handler (app.py lines 393-399):
unconditionally clears the flag; the worker count is untouched (the worker
exits on its own when it next observes the flag). -/
def stop_live_simulation (s : SchedulerState) : SchedulerState :=
  { s with active := false }

/-- Bit `p % 8` of frame byte `p / 8`: the frame bit at absolute position `p`,
with bit 0 of byte 0 the least significant bit of the first byte. -/
def getAbsBit (data : ℕ → ℕ) (p : ℕ) : Bool :=
  (data (p / 8)).testBit (p % 8)

/-- Modelled from the spec: the "unpack" direction of §8's round-trip
property, absent from the code. `read_bits data pos n` reads `n` bits
little-endian (LSB first) from absolute bit position `pos` of the frame. -/
def read_bits (data : ℕ → ℕ) (pos : ℕ) : ℕ → ℕ
  | 0 => 0
  | n + 1 => read_bits data pos n + (((data ((pos + n) / 8) >>> ((pos + n) % 8)) &&& 1) <<< n)

/-! ## Helper lemmas about rounding and the encoder -/

theorem pyRound_nonneg {q : ℚ} (hq : 0 ≤ q) : 0 ≤ pyRound q := by
  have hf : (0 : ℤ) ≤ ⌊q⌋ := Int.floor_nonneg.mpr hq
  unfold pyRound
  split_ifs <;> omega

theorem abs_pyRound_sub_le (q : ℚ) : |(pyRound q : ℚ) - q| ≤ 1/2 := by
  have h0 : (⌊q⌋ : ℚ) ≤ q := Int.floor_le q
  have h1 : q < ⌊q⌋ + 1 := Int.lt_floor_add_one q
  unfold pyRound
  split_ifs with hr1 hr2 hpar <;> push_cast <;> rw [abs_le] <;> constructor <;> linarith

theorem pyRound_half (n : ℤ) : pyRound ((n : ℚ) + 1/2) = if n % 2 = 0 then n else n + 1 := by
  have hfloor : ⌊(n : ℚ) + 1/2⌋ = n := by
    rw [add_comm, Int.floor_add_int]
    norm_num
  rw [pyRound, hfloor]
  have hr : (n : ℚ) + 1/2 - (n : ℚ) = 1/2 := by ring
  rw [hr, if_neg (by norm_num), if_neg (by norm_num)]

theorem encode_spn_eq (v : ℚ) (cfg : SignalConfig) (hres : cfg.resolution ≠ 0) :
    encode_spn v cfg = .ok
      { physical_value := v
        raw_value := max 0 (pyRound ((v - cfg.offset) / cfg.resolution))
        data_array := (List.range 8).map
          (encode_value (max 0 (pyRound ((v - cfg.offset) / cfg.resolution))).toNat
            cfg.start_byte cfg.start_bit cfg.length_bits)
        can_id := calculate_can_id cfg.pgn 0
        pgn := cfg.pgn
        spn := cfg.spn
        resolution := cfg.resolution
        offset := cfg.offset
        unit := cfg.unit } := by
  unfold encode_spn physical_to_raw
  rw [if_neg hres]
  rfl

theorem encode_spn_zero_res (v : ℚ) (cfg : SignalConfig) (hres : cfg.resolution = 0) :
    encode_spn v cfg = .error "Resolution cannot be zero" := by
  unfold encode_spn physical_to_raw
  rw [if_pos hres]
  rfl

theorem lookup_resolution_ne_zero {signal_id : String} {config : SignalConfig}
    (h : lookupSignal signal_id = some config) : config.resolution ≠ 0 := by
  unfold lookupSignal at h
  rcases hf : LIVE_SIGNALS.find? (fun p => p.1 = signal_id) with _ | pair
  · rw [hf] at h
    exact Option.noConfusion h
  · rw [hf] at h
    have hpc : pair.2 = config := Option.some.inj h
    have hmem : pair ∈ LIVE_SIGNALS := List.mem_of_find?_eq_some hf
    rw [LIVE_SIGNALS] at hmem
    simp only [List.mem_cons, List.not_mem_nil, or_false] at hmem
    rcases hmem with hp | hp | hp | hp <;> rw [← hpc, hp] <;>
      norm_num [engine_speed, vehicle_speed, cab_temperature, driver_torque]

/-! ## Claims C3, C10, C8, C7, C9, C1 -/

/-- Claim C3: `physical_to_raw` fails (with the zero-resolution
`ConfigurationError`) iff the resolution is 0, and otherwise returns
`max 0 (round((value - offset) / resolution))`: negative raw values are
floored to 0, never reported as an error. -/
theorem physical_to_raw_spec (value resolution offset : ℚ) :
    (physical_to_raw value resolution offset = .error "Resolution cannot be zero" ↔
      resolution = 0) ∧
    (resolution ≠ 0 →
      physical_to_raw value resolution offset =
        .ok (max 0 (pyRound ((value - offset) / resolution)))) := by
  unfold physical_to_raw
  constructor
  · constructor
    · intro h
      by_contra hres
      rw [if_neg hres] at h
      exact Except.noConfusion h
    · intro h
      rw [if_pos h]
  · intro h
    rw [if_neg h]

theorem physical_to_raw_spec_witness :
    (physical_to_raw 3 0 0 = .error "Resolution cannot be zero") ∧
    ((2 : ℚ) ≠ 0 ∧ physical_to_raw 3 2 0 = .ok (max 0 (pyRound ((3 - 0) / 2)))) :=
  ⟨(physical_to_raw_spec 3 0 0).1.mpr rfl,
   by norm_num, (physical_to_raw_spec 3 2 0).2 (by norm_num)⟩

/-- Claim C10, counterexample: at physical value -3/2, resolution 1, offset 0
the quotient is exactly halfway (-2 + 1/2), the even neighbour is -2, but
`physical_to_raw` returns 0 because the banker's rounding happens before
the clamp `max(0, ·)`. -/
theorem physical_to_raw_half_clamped_cex :
    ((-3/2 : ℚ) - 0) / 1 = (-2 : ℤ) + 1/2 ∧
    (-2 : ℤ) % 2 = 0 ∧
    physical_to_raw (-3/2) 1 0 = .ok 0 ∧
    (0 : ℤ) ≠ -2 := by
  refine ⟨by norm_num, by decide, ?_, by decide⟩
  have h := (physical_to_raw_spec (-3/2) 1 0).2 (by norm_num)
  rw [h]
  have hq : ((-3/2 : ℚ) - 0) / 1 = ((-2 : ℤ) : ℚ) + 1/2 := by norm_num
  rw [hq, pyRound_half]
  decide

/-- Claim C10 (amended): `physical_to_raw` rounds half to even before the
clamp to 0: whenever the quotient is exactly halfway between two integers,
the result is `max 0` of the even neighbour (so a quotient of 0.5 yields 0
and 1.5 yields 2, but a negative halfway quotient below -1/2 clamps to 0). -/
theorem physical_to_raw_half_to_even (value resolution offset : ℚ) (n : ℤ)
    (hres : resolution ≠ 0) (hhalf : (value - offset) / resolution = (n : ℚ) + 1/2) :
    physical_to_raw value resolution offset =
      .ok (max 0 (if n % 2 = 0 then n else n + 1)) := by
  rw [(physical_to_raw_spec value resolution offset).2 hres, hhalf, pyRound_half]

theorem physical_to_raw_half_to_even_witness :
    ((1 : ℚ) ≠ 0 ∧ ((3/2 : ℚ) - 0) / 1 = ((1 : ℤ) : ℚ) + 1/2) ∧
    physical_to_raw (3/2) 1 0 = .ok (max 0 (if (1 : ℤ) % 2 = 0 then 1 else 1 + 1)) :=
  ⟨⟨by norm_num, by norm_num⟩,
   physical_to_raw_half_to_even (3/2) 1 0 1 (by norm_num) (by norm_num)⟩

/-- Claim C8: on the run-state machine, `start` is a no-op when the state is
already running (no state change, no extra worker), starting twice from the
idle initial state spawns exactly one worker, and `stop` in the idle state
leaves the state unchanged. -/
theorem scheduler_control_spec :
    (∀ s : SchedulerState, s.active = true → start_live_simulation s = s) ∧
    (start_live_simulation (start_live_simulation ⟨false, 0⟩) = ⟨true, 1⟩) ∧
    (∀ w : ℕ, stop_live_simulation ⟨false, w⟩ = ⟨false, w⟩) := by
  refine ⟨fun s hs => ?_, rfl, fun w => rfl⟩
  unfold start_live_simulation
  rw [hs]
  rfl

theorem scheduler_control_spec_witness :
    SchedulerState.active ⟨true, 1⟩ = true ∧
    start_live_simulation ⟨true, 1⟩ = ⟨true, 1⟩ ∧
    start_live_simulation (start_live_simulation ⟨false, 0⟩) = ⟨true, 1⟩ ∧
    stop_live_simulation ⟨false, 0⟩ = ⟨false, 0⟩ :=
  ⟨rfl, scheduler_control_spec.1 ⟨true, 1⟩ rfl, scheduler_control_spec.2.1,
   scheduler_control_spec.2.2 0⟩

/-- Claim C7: an encode request whose `signal_id` is not in the live signal
set is answered with the invalid-signal error and HTTP 400; no frame of any
kind is produced. -/
theorem api_encode_unknown_signal (signal_id : String) (physical_value : Option ℚ)
    (h : lookupSignal signal_id = none) :
    api_encode signal_id physical_value = .error ("Invalid signal ID", 400) := by
  unfold api_encode
  rw [h]

theorem api_encode_unknown_signal_witness :
    lookupSignal "bogus" = none ∧
    api_encode "bogus" (some 42) = .error ("Invalid signal ID", 400) :=
  ⟨rfl, api_encode_unknown_signal "bogus" (some 42) rfl⟩

/-- Claim C9: an encode request that omits `physical_value` is not rejected:
the handler substitutes 0 and successfully encodes physical value 0 for the
requested signal. -/
theorem api_encode_missing_value (signal_id : String) (config : SignalConfig)
    (hfound : lookupSignal signal_id = some config) :
    (api_encode signal_id none).map EncodedFrame.physical_value = .ok 0 := by
  have hres := lookup_resolution_ne_zero hfound
  simp only [api_encode, Option.getD_none, hfound, encode_spn_eq 0 config hres, Except.map]

theorem api_encode_missing_value_witness :
    lookupSignal "engine_speed" = some engine_speed ∧
    (api_encode "engine_speed" none).map EncodedFrame.physical_value = .ok 0 :=
  ⟨rfl, api_encode_missing_value "engine_speed" engine_speed rfl⟩

/-- Claim C1, counterexample: for the `engine_speed` signal (16 bits) and
physical value 1000000, the `raw_value` field of the frame returned by
`encode_spn` is 8000000, which exceeds 2^16 - 1 = 65535: only the bits
packed into the data bytes are saturated, not the reported `raw_value`. -/
theorem encode_spn_raw_value_exceeds_field_cex :
    (encode_spn 1000000 engine_speed).map EncodedFrame.raw_value = .ok 8000000 ∧
    engine_speed.length_bits = 16 ∧
    ¬((8000000 : ℤ) ≤ 2 ^ 16 - 1) := by
  refine ⟨?_, rfl, by decide⟩
  rw [encode_spn_eq 1000000 engine_speed (by norm_num [engine_speed])]
  have hq : ((1000000 : ℚ) - engine_speed.offset) / engine_speed.resolution = 8000000 := by
    norm_num [engine_speed]
  simp only [Except.map, hq]
  norm_num [pyRound]

/-- Claim C1 (amended): the `raw_value` field of every frame returned by
`encode_spn` is nonnegative, but it is not clamped above: it can exceed
`2^length_bits - 1` for out-of-range physical values (the saturation to the
field width applies only to the bits packed into the data bytes). -/
theorem encode_spn_raw_value_nonneg (v : ℚ) (cfg : SignalConfig) (frame : EncodedFrame)
    (h : encode_spn v cfg = .ok frame) : 0 ≤ frame.raw_value := by
  by_cases hres : cfg.resolution = 0
  · rw [encode_spn_zero_res v cfg hres] at h
    exact Except.noConfusion h
  · rw [encode_spn_eq v cfg hres] at h
    rw [← Except.ok.inj h]
    exact le_max_left 0 _

theorem encode_spn_raw_value_nonneg_witness :
    0 ≤ (max 0 (pyRound (((1 : ℚ) - engine_speed.offset) / engine_speed.resolution)) : ℤ) :=
  encode_spn_raw_value_nonneg 1 engine_speed _
    (encode_spn_eq 1 engine_speed (by norm_num [engine_speed]))

/-! ## Claim C2: the 29-bit CAN identifier -/

theorem nat_and_255 (x : ℕ) : x &&& 0xFF = x % 256 := by
  rw [show (0xFF : ℕ) = 2 ^ 8 - 1 from rfl, Nat.and_pow_two_sub_one_eq_mod]

theorem nat_and_3 (x : ℕ) : x &&& 0x3 = x % 4 := by
  rw [show (0x3 : ℕ) = 2 ^ 2 - 1 from rfl, Nat.and_pow_two_sub_one_eq_mod]

theorem can_id_assemble (pf ps sa : ℕ) (hpf : pf < 256) (hps : ps < 256) :
    ((6 &&& 0x7) <<< 26) ||| ((0 &&& 0x1) <<< 25) ||| ((0 &&& 0x1) <<< 24) |||
      ((pf &&& 0xFF) <<< 16) ||| ((ps &&& 0xFF) <<< 8) ||| (sa &&& 0xFF) =
      402653184 + pf * 65536 + ps * 256 + sa % 256 := by
  have hsa : sa &&& 0xFF = sa % 256 := nat_and_255 sa
  have hpf8 : pf &&& 0xFF = pf := by rw [nat_and_255, Nat.mod_eq_of_lt hpf]
  have hps8 : ps &&& 0xFF = ps := by rw [nat_and_255, Nat.mod_eq_of_lt hps]
  rw [show ((6 : ℕ) &&& 0x7) = 6 from rfl, show ((0 : ℕ) &&& 0x1) = 0 from rfl]
  simp only [Nat.zero_shiftLeft, Nat.or_zero]
  rw [hpf8, hps8, hsa]
  rw [Nat.lor_assoc (6 <<< 26), Nat.lor_assoc (6 <<< 26), Nat.lor_assoc (pf <<< 16)]
  rw [Nat.shiftLeft_eq, Nat.shiftLeft_eq, Nat.shiftLeft_eq,
    mul_comm 6 (2 ^ 26), mul_comm pf (2 ^ 16), mul_comm ps (2 ^ 8)]
  rw [← Nat.mul_add_lt_is_or (by omega : sa % 256 < 2 ^ 8) ps]
  rw [← Nat.mul_add_lt_is_or (by omega : 2 ^ 8 * ps + sa % 256 < 2 ^ 16) pf]
  rw [← Nat.mul_add_lt_is_or
    (by omega : 2 ^ 16 * pf + (2 ^ 8 * ps + sa % 256) < 2 ^ 26) 6]
  omega

theorem calculate_can_id_eq (pgn source_address : ℕ) :
    calculate_can_id pgn source_address =
      402653184 + (pgn / 256 % 256) * 65536 +
        (if pgn < 61440 then pgn % 256 else 255) * 256 + source_address % 256 := by
  have hpf : (pgn >>> 8) &&& 0xFF = pgn / 256 % 256 := by
    rw [Nat.shiftRight_eq_div_pow, nat_and_255, show (2 : ℕ) ^ 8 = 256 from rfl]
  simp only [calculate_can_id]
  by_cases hlt : pgn < 0xF000
  · rw [if_pos hlt,
      can_id_assemble _ _ _ (by rw [hpf] ; omega) (by rw [nat_and_255] ; omega),
      hpf, nat_and_255, if_pos (by omega : pgn < 61440)]
  · rw [if_neg hlt,
      can_id_assemble _ _ _ (by rw [hpf] ; omega) (by norm_num),
      hpf, if_neg (by omega : ¬pgn < 61440)]

/-- Claim C2: for every PGN and every (8-bit) source address, the CAN
identifier built by `calculate_can_id` fits in 29 bits, has priority 6 in
bits 26-28, zeros in bits 24-25, the PGN's high byte in bits 16-23, `0xFF`
in bits 8-15 when `pgn ≥ 0xF000` and the PGN's low byte otherwise, and the
source address in bits 0-7; in particular PGN 61444 with source address 0
yields `0x18F0FF00`. -/
theorem calculate_can_id_fields (pgn source_address : ℕ) (hsa : source_address < 256) :
    calculate_can_id pgn source_address < 2 ^ 29 ∧
    calculate_can_id pgn source_address >>> 26 = 6 ∧
    (calculate_can_id pgn source_address >>> 24) &&& 0x3 = 0 ∧
    (calculate_can_id pgn source_address >>> 16) &&& 0xFF = (pgn >>> 8) &&& 0xFF ∧
    (calculate_can_id pgn source_address >>> 8) &&& 0xFF =
      (if 0xF000 ≤ pgn then 0xFF else pgn &&& 0xFF) ∧
    calculate_can_id pgn source_address &&& 0xFF = source_address ∧
    calculate_can_id 61444 0 = 0x18F0FF00 := by
  have heq := calculate_can_id_eq pgn source_address
  rw [Nat.mod_eq_of_lt hsa] at heq
  have hpf : (pgn >>> 8) &&& 0xFF = pgn / 256 % 256 := by
    rw [Nat.shiftRight_eq_div_pow, nat_and_255, show (2 : ℕ) ^ 8 = 256 from rfl]
  have hb1 : pgn / 256 % 256 < 256 := by omega
  have hb2 : (if pgn < 61440 then pgn % 256 else 255) < 256 := by split_ifs <;> omega
  refine ⟨?_, ?_, ?_, ?_, ?_, ?_, by decide⟩
  · rw [show (2 : ℕ) ^ 29 = 536870912 from rfl]
    omega
  · rw [Nat.shiftRight_eq_div_pow, show (2 : ℕ) ^ 26 = 67108864 from rfl]
    omega
  · rw [Nat.shiftRight_eq_div_pow, nat_and_3, show (2 : ℕ) ^ 24 = 16777216 from rfl]
    omega
  · rw [Nat.shiftRight_eq_div_pow, nat_and_255, hpf,
      show (2 : ℕ) ^ 16 = 65536 from rfl]
    omega
  · rw [Nat.shiftRight_eq_div_pow, nat_and_255, show (2 : ℕ) ^ 8 = 256 from rfl]
    rcases Nat.lt_or_ge pgn 61440 with hlt | hge
    · rw [if_neg (by omega : ¬(0xF000 : ℕ) ≤ pgn), nat_and_255]
      rw [if_pos hlt] at heq hb2
      omega
    · rw [if_pos (by omega : (0xF000 : ℕ) ≤ pgn)]
      rw [if_neg (by omega : ¬pgn < 61440)] at heq hb2
      omega
  · rw [nat_and_255]
    omega

theorem calculate_can_id_fields_witness :
    (0 : ℕ) < 256 ∧
    (calculate_can_id 61444 0 < 2 ^ 29 ∧
     calculate_can_id 61444 0 >>> 26 = 6 ∧
     (calculate_can_id 61444 0 >>> 24) &&& 0x3 = 0 ∧
     (calculate_can_id 61444 0 >>> 16) &&& 0xFF = ((61444 : ℕ) >>> 8) &&& 0xFF ∧
     (calculate_can_id 61444 0 >>> 8) &&& 0xFF =
       (if (0xF000 : ℕ) ≤ 61444 then 0xFF else (61444 : ℕ) &&& 0xFF) ∧
     calculate_can_id 61444 0 &&& 0xFF = 0 ∧
     calculate_can_id 61444 0 = 0x18F0FF00) :=
  ⟨by decide, calculate_can_id_fields 61444 0 (by decide)⟩

/-! ## Claims C4 and C5: bit packing -/

theorem one_shiftLeft_two_pow (n : ℕ) : 1 <<< n = 2 ^ n := by
  rw [Nat.shiftLeft_eq, one_mul]

theorem and_one_testBit (x i : ℕ) : (x >>> i) &&& 1 = (x.testBit i).toNat := by
  rw [Nat.and_one_is_mod, Nat.toNat_testBit, Nat.shiftRight_eq_div_pow]

theorem getAbsBit_write_bit (raw b bi i : ℕ) (data : ℕ → ℕ) (p : ℕ) :
    getAbsBit (write_bit raw b bi i data) p =
      if p = 8 * b + bi + i then raw.testBit i else getAbsBit data p := by
  have hp8 : p % 8 < 8 := Nat.mod_lt _ (by norm_num)
  have hmask255 : ∀ j, j < 8 → Nat.testBit 255 j = true := by
    intro j hj
    rw [show (255 : ℕ) = 2 ^ 8 - 1 from rfl, Nat.testBit_two_pow_sub_one]
    simpa using hj
  simp only [getAbsBit, write_bit]
  by_cases hp : p = 8 * b + bi + i
  · rw [if_pos hp]
    have h1 : p / 8 = b + (bi + i) / 8 := by omega
    have h2 : p % 8 = (bi + i) % 8 := by omega
    rw [h1, if_pos rfl, h2]
    by_cases hbit : raw.testBit i
    · rw [if_pos (by rw [and_one_testBit, hbit] ; rfl), one_shiftLeft_two_pow,
        Nat.testBit_or, Nat.testBit_two_pow_self, Bool.or_true, hbit]
    · rw [Bool.not_eq_true] at hbit
      rw [if_neg (by rw [and_one_testBit, hbit] ; decide), one_shiftLeft_two_pow,
        Nat.testBit_and, Nat.testBit_xor, Nat.testBit_two_pow_self,
        hmask255 _ (by omega), hbit]
      simp
  · rw [if_neg hp]
    by_cases hbyte : p / 8 = b + (bi + i) / 8
    · have hbitne : p % 8 ≠ (bi + i) % 8 := by omega
      rw [if_pos hbyte]
      by_cases hbit : (raw >>> i) &&& 1 = 1
      · rw [if_pos hbit, one_shiftLeft_two_pow, Nat.testBit_or,
          Nat.testBit_two_pow_of_ne (Ne.symm hbitne), Bool.or_false]
      · rw [if_neg hbit, one_shiftLeft_two_pow, Nat.testBit_and, Nat.testBit_xor,
          Nat.testBit_two_pow_of_ne (Ne.symm hbitne), hmask255 _ hp8]
        simp
    · rw [if_neg hbyte]

theorem getAbsBit_pack_loop (raw b bi : ℕ) (n : ℕ) (data : ℕ → ℕ) (p : ℕ) :
    getAbsBit (pack_loop raw b bi n data) p =
      if 8 * b + bi ≤ p ∧ p < 8 * b + bi + n then raw.testBit (p - (8 * b + bi))
      else getAbsBit data p := by
  induction n with
  | zero =>
    simp only [pack_loop]
    rw [if_neg (by omega)]
  | succ n ih =>
    simp only [pack_loop]
    rw [getAbsBit_write_bit raw b bi n, ih]
    by_cases hp : p = 8 * b + bi + n
    · rw [if_pos hp, if_pos (by omega), hp, show 8 * b + bi + n - (8 * b + bi) = n from by omega]
    · rw [if_neg hp]
      by_cases hin : 8 * b + bi ≤ p ∧ p < 8 * b + bi + n
      · rw [if_pos hin, if_pos (by omega)]
      · rw [if_neg hin, if_neg (by omega)]

theorem encode_value_eq (raw_value start_byte start_bit length_bits : ℕ) :
    encode_value raw_value start_byte start_bit length_bits =
      pack_loop (min raw_value (2 ^ length_bits - 1)) (start_byte - 1) (start_bit - 1)
        length_bits (fun _ => 0) := by
  have hsat : (if raw_value > (1 <<< length_bits) - 1 then (1 <<< length_bits) - 1
      else raw_value) = min raw_value (2 ^ length_bits - 1) := by
    rw [one_shiftLeft_two_pow, Nat.min_def]
    split_ifs <;> omega
  simp only [encode_value, hsat]

theorem getAbsBit_encode_value (raw_value start_byte start_bit length_bits : ℕ) (p : ℕ) :
    getAbsBit (encode_value raw_value start_byte start_bit length_bits) p =
      if 8 * (start_byte - 1) + (start_bit - 1) ≤ p ∧
          p < 8 * (start_byte - 1) + (start_bit - 1) + length_bits then
        (min raw_value (2 ^ length_bits - 1)).testBit
          (p - (8 * (start_byte - 1) + (start_bit - 1)))
      else false := by
  rw [encode_value_eq, getAbsBit_pack_loop]
  by_cases h : 8 * (start_byte - 1) + (start_bit - 1) ≤ p ∧
      p < 8 * (start_byte - 1) + (start_bit - 1) + length_bits
  · rw [if_pos h, if_pos h]
  · rw [if_neg h, if_neg h]
    simp [getAbsBit]

theorem read_bits_eq_mod (data : ℕ → ℕ) (pos : ℕ) (x : ℕ) (L : ℕ)
    (h : ∀ k, k < L → getAbsBit data (pos + k) = x.testBit k) :
    read_bits data pos L = x % 2 ^ L := by
  induction L with
  | zero => simp [read_bits, Nat.mod_one]
  | succ n ih =>
    simp only [read_bits]
    rw [ih (fun k hk => h k (by omega))]
    have hb : (data ((pos + n) / 8)).testBit ((pos + n) % 8) = x.testBit n := by
      have := h n (by omega)
      simpa [getAbsBit] using this
    rw [and_one_testBit, hb, Nat.toNat_testBit, Nat.shiftLeft_eq, pow_succ, Nat.mod_mul]
    ring

/-- Claim C4: packing with `encode_value` and then reading `length_bits`
bits back little-endian from absolute bit position
`(start_byte-1)*8 + (start_bit-1)` reproduces the saturated raw value
`min raw (2^length_bits - 1)` exactly, for every bit width in 1..64 and
every start position whose span fits in the 8-byte frame. -/
theorem pack_unpack_roundtrip (raw_value start_byte start_bit length_bits : ℕ)
    (hL1 : 1 ≤ length_bits) (hL64 : length_bits ≤ 64)
    (hsb : 1 ≤ start_byte) (hbit1 : 1 ≤ start_bit) (hbit8 : start_bit ≤ 8)
    (hfit : (start_byte - 1) * 8 + (start_bit - 1) + length_bits ≤ 64) :
    read_bits (encode_value raw_value start_byte start_bit length_bits)
      ((start_byte - 1) * 8 + (start_bit - 1)) length_bits =
      min raw_value (2 ^ length_bits - 1) := by
  have hpos : 0 < 2 ^ length_bits := Nat.two_pow_pos length_bits
  have hmin : min raw_value (2 ^ length_bits - 1) < 2 ^ length_bits := by omega
  have hbits : ∀ k, k < length_bits →
      getAbsBit (encode_value raw_value start_byte start_bit length_bits)
        ((start_byte - 1) * 8 + (start_bit - 1) + k) =
        (min raw_value (2 ^ length_bits - 1)).testBit k := by
    intro k hk
    rw [getAbsBit_encode_value, if_pos (by constructor <;> omega),
      show (start_byte - 1) * 8 + (start_bit - 1) + k -
        (8 * (start_byte - 1) + (start_bit - 1)) = k from by omega]
  rw [read_bits_eq_mod _ _ _ _ hbits, Nat.mod_eq_of_lt hmin]

theorem pack_unpack_roundtrip_witness :
    ((1 : ℕ) ≤ 16 ∧ (16 : ℕ) ≤ 64 ∧ (1 : ℕ) ≤ 4 ∧ (1 : ℕ) ≤ 1 ∧ (1 : ℕ) ≤ 8 ∧
      (4 - 1) * 8 + (1 - 1) + 16 ≤ 64) ∧
    read_bits (encode_value 70000 4 1 16) ((4 - 1) * 8 + (1 - 1)) 16 =
      min 70000 (2 ^ 16 - 1) :=
  ⟨⟨by decide, by decide, by decide, by decide, by decide, by decide⟩,
   pack_unpack_roundtrip 70000 4 1 16 (by decide) (by decide) (by decide) (by decide)
     (by decide) (by decide)⟩

/-- Claim C5: `encode_value` saturates the raw value to
`min raw (2^length_bits - 1)` without error, packs its bits LSB-first
starting at absolute bit position `(start_byte-1)*8 + (start_bit-1)`, and
leaves every other bit of the frame zero; in particular, for the
`engine_speed` layout (start byte 4, start bit 1, 16 bits) physical value
1000 gives raw 8000 and the frame `00 00 00 40 1F 00 00 00`. -/
theorem encode_value_spec (raw_value start_byte start_bit length_bits : ℕ)
    (hbit1 : 1 ≤ start_bit) (hbit8 : start_bit ≤ 8) :
    (∀ p, (start_byte - 1) * 8 + (start_bit - 1) ≤ p →
        p < (start_byte - 1) * 8 + (start_bit - 1) + length_bits →
        getAbsBit (encode_value raw_value start_byte start_bit length_bits) p =
          (min raw_value (2 ^ length_bits - 1)).testBit
            (p - ((start_byte - 1) * 8 + (start_bit - 1)))) ∧
    (∀ p, p < (start_byte - 1) * 8 + (start_bit - 1) ∨
        (start_byte - 1) * 8 + (start_bit - 1) + length_bits ≤ p →
        getAbsBit (encode_value raw_value start_byte start_bit length_bits) p = false) ∧
    physical_to_raw 1000 engine_speed.resolution engine_speed.offset = .ok 8000 ∧
    (List.range 8).map (encode_value 8000 4 1 16) =
      [0x00, 0x00, 0x00, 0x40, 0x1F, 0x00, 0x00, 0x00] := by
  refine ⟨fun p h1 h2 => ?_, fun p hp => ?_, ?_, by decide⟩
  · rw [getAbsBit_encode_value, if_pos (by constructor <;> omega),
      show p - (8 * (start_byte - 1) + (start_bit - 1)) =
        p - ((start_byte - 1) * 8 + (start_bit - 1)) from by omega]
  · rw [getAbsBit_encode_value, if_neg (by omega)]
  · norm_num [physical_to_raw, pyRound, engine_speed]

theorem encode_value_spec_witness :
    ((1 : ℕ) ≤ 1 ∧ (1 : ℕ) ≤ 8) ∧
    getAbsBit (encode_value 8000 4 1 16) 24 =
      (min 8000 (2 ^ 16 - 1)).testBit (24 - ((4 - 1) * 8 + (1 - 1))) ∧
    getAbsBit (encode_value 8000 4 1 16) 0 = false ∧
    physical_to_raw 1000 engine_speed.resolution engine_speed.offset = .ok 8000 ∧
    (List.range 8).map (encode_value 8000 4 1 16) =
      [0x00, 0x00, 0x00, 0x40, 0x1F, 0x00, 0x00, 0x00] :=
  ⟨⟨by decide, by decide⟩,
   (encode_value_spec 8000 4 1 16 (by decide) (by decide)).1 24 (by decide) (by decide),
   (encode_value_spec 8000 4 1 16 (by decide) (by decide)).2.1 0 (Or.inl (by decide)),
   (encode_value_spec 8000 4 1 16 (by decide) (by decide)).2.2.1,
   (encode_value_spec 8000 4 1 16 (by decide) (by decide)).2.2.2⟩

/-! ## Claim C6: reconstruction accuracy over the live catalog -/

theorem reconstruction_core (v res off : ℚ) (hres : 0 < res) (hoff : off ≤ v) (raw : ℤ)
    (hraw : physical_to_raw v res off = .ok raw) :
    |(raw : ℚ) * res + off - v| ≤ res / 2 := by
  rw [physical_to_raw, if_neg (ne_of_gt hres)] at hraw
  have hrw : max 0 (pyRound ((v - off) / res)) = raw := Except.ok.inj hraw
  have hq : 0 ≤ (v - off) / res := div_nonneg (by linarith) (le_of_lt hres)
  rw [max_eq_right (pyRound_nonneg hq)] at hrw
  subst hrw
  have habs : |(pyRound ((v - off) / res) : ℚ) - (v - off) / res| ≤ 1/2 :=
    abs_pyRound_sub_le ((v - off) / res)
  have hcancel : ((v - off) / res) * res = v - off := div_mul_cancel₀ _ (ne_of_gt hres)
  have hrepr : (pyRound ((v - off) / res) : ℚ) * res + off - v =
      ((pyRound ((v - off) / res) : ℚ) - (v - off) / res) * res := by
    rw [sub_mul, hcancel]
    ring
  rw [hrepr, abs_mul, abs_of_pos hres]
  calc |(pyRound ((v - off) / res) : ℚ) - (v - off) / res| * res
      ≤ (1/2) * res := by
        exact mul_le_mul_of_nonneg_right habs (le_of_lt hres)
    _ = res / 2 := by ring

/-- Claim C6: for every signal definition in the live catalog and every
physical value `v` within its `[min_physical, max_physical]` range, the raw
value computed by `physical_to_raw` reconstructs `v` to within half a
resolution step: `|raw * resolution + offset - v| ≤ resolution / 2`. -/
theorem live_signal_reconstruction (p : String × SignalConfig) (hp : p ∈ LIVE_SIGNALS)
    (v : ℚ) (hlo : p.2.min_physical ≤ v) (hhi : v ≤ p.2.max_physical) (raw : ℤ)
    (hraw : physical_to_raw v p.2.resolution p.2.offset = .ok raw) :
    |(raw : ℚ) * p.2.resolution + p.2.offset - v| ≤ p.2.resolution / 2 := by
  rw [LIVE_SIGNALS] at hp
  simp only [List.mem_cons, List.not_mem_nil, or_false] at hp
  rcases hp with hp | hp | hp | hp <;> subst hp <;>
    refine reconstruction_core v _ _ (by norm_num [engine_speed, vehicle_speed,
      cab_temperature, driver_torque]) ?_ raw hraw <;>
    revert hlo <;>
    norm_num [engine_speed, vehicle_speed, cab_temperature, driver_torque]

theorem live_signal_reconstruction_witness :
    (("engine_speed", engine_speed) ∈ LIVE_SIGNALS ∧
      engine_speed.min_physical ≤ (1000 : ℚ) ∧
      (1000 : ℚ) ≤ engine_speed.max_physical ∧
      physical_to_raw 1000 engine_speed.resolution engine_speed.offset = .ok 8000) ∧
    |((8000 : ℤ) : ℚ) * engine_speed.resolution + engine_speed.offset - 1000| ≤
      engine_speed.resolution / 2 :=
  ⟨⟨List.mem_cons_self _ _, by norm_num [engine_speed], by norm_num [engine_speed],
     by norm_num [physical_to_raw, pyRound, engine_speed]⟩,
   live_signal_reconstruction ("engine_speed", engine_speed) (List.mem_cons_self _ _)
     1000 (by norm_num [engine_speed]) (by norm_num [engine_speed]) 8000
     (by norm_num [physical_to_raw, pyRound, engine_speed])⟩
